import Mathlib

/-!
Shallow embedding of the well-log-viewer-dash repository
(`src/example_well_log_synced.py`, with the resolver shared by
`src/example_well_log_with_wellpicks.py`).

Conventions of the embedding:
* pandas DataFrames become Lean lists of row structures, in row order;
* depth cells (floats in the source, used only for carrying and for
  `min`/`max` comparison) become `Int`, which is order-faithful;
* a cell of the `Depositional Environment` column is `Option String`:
  `none` models a non-string (NaN) cell, exactly the `isinstance(.., str)`
  test of the source;
* Python exceptions become `Except Err`; `Err.lookupError` models the
  `IndexError` raised by `.values[0]` on an empty selection (an
  `IndexError` is a `LookupError` in Python), `Err.keyError` the
  `KeyError` of a dict subscript, and `Err.regexError` the `re.error`
  raised when the pattern does not compile (`re.error` is not a
  `LookupError`);
* `pandas.Series.str.contains(pat, flags=re.IGNORECASE)` compiles `pat`
  as a regular expression and then tests, per cell, whether the pattern
  matches somewhere inside the cell (`re.search`).  We model the
  following fragment of Python `re`, with CPython's parsing rules:
  literal characters, the wildcard `.` (any character except a newline),
  grouping parentheses (unbalanced ones are a compile error),
  alternation `|`, the anchors `^` (start of string) and `$` (end of
  string, or just before a trailing newline), and bounded brace
  quantifiers `{m}`, `{m,n}`, `{,n}` — applied to the preceding atom,
  with CPython's errors when there is nothing to repeat (start of a
  branch, an anchor) or when the previous atom is already quantified
  ("multiple repeat"), and with CPython's literal-brace fallback when
  the braces do not parse as a quantifier (so `{`, `}` and `]` standing
  alone are ordinary characters, as in Python).  Outside the modelled
  fragment — and mapped to a compile error, although Python accepts
  most of them — are only the unbounded quantifiers `*`, `+`, `?` and
  `{m,}`, character classes `[...]`, and backslash escapes; no claim
  depends on such patterns.  `re.IGNORECASE` is modelled by lowering
  literals with `Char.toLower`.
-/

namespace WellLogViewer

/-- The abstract syntax of the modelled fragment of Python regular
expressions: the empty pattern, a literal character, the wildcard, the two
anchors, concatenation and alternation.  Bounded repetition is expressed by
unrolling into concatenation and alternation with the empty pattern. -/
inductive Pat where
  | empty : Pat
  | lit : Char → Pat
  | dot : Pat
  | startAnchor : Pat
  | endAnchor : Pat
  | seq : Pat → Pat → Pat
  | alt : Pat → Pat → Pat
deriving DecidableEq, Repr

/-- Characters outside the modelled fragment of Python `re`: unbounded
quantifiers, character classes and escapes are not modelled, and a pattern
reaching one of these characters is mapped to a compile error (Python
accepts most of them; no claim depends on such patterns). -/
def outsideFragment : List Char := ['*', '+', '?', '[', '\\']

/-- Concatenate a list of atoms into one pattern. -/
def seqOf : List Pat → Pat
  | [] => Pat.empty
  | p :: rest => Pat.seq p (seqOf rest)

/-- Combine the alternatives of a branch list. -/
def altOf : List Pat → Pat
  | [] => Pat.empty
  | [p] => p
  | p :: rest => Pat.alt p (altOf rest)

/-- Close the current alternative: atoms are accumulated in reverse, each
carrying the flag saying whether a quantifier may follow it. -/
def finishSeq (seqRev : List (Pat × Bool)) : Pat :=
  seqOf (seqRev.reverse.map Prod.fst)

/-- `n` copies of a pattern, concatenated. -/
def repeatPat (p : Pat) : Nat → Pat
  | 0 => Pat.empty
  | n + 1 => Pat.seq p (repeatPat p n)

/-- A bounded quantifier `p{lo,hi}`, unrolled: `lo` mandatory copies
followed by `hi - lo` optional ones. -/
def repPat (p : Pat) (lo hi : Nat) : Pat :=
  Pat.seq (repeatPat p lo) (repeatPat (Pat.alt p Pat.empty) (hi - lo))

/-- The numeric value of a digit string. -/
def digitsToNat (l : List Char) : Nat :=
  l.foldl (fun acc c => acc * 10 + (c.toNat - 48)) 0

/-- Scan a brace quantifier after `{`, as CPython's parser does: digits, an
optional comma with digits, then `}`.  Returns the bounds and the rest of
the pattern; `none` means the brace is read literally (CPython's fallback,
e.g. for `{}`, `{x}` or an unterminated `{`); an absent upper bound
(`{m,}`, `{,}`) is reported as `none` in the middle component. -/
def scanQuant (l : List Char) : Option (Nat × Option Nat × List Char) :=
  match l.dropWhile (·.isDigit) with
  | '}' :: r2 =>
    if (l.takeWhile (·.isDigit)).isEmpty then none
    else some (digitsToNat (l.takeWhile (·.isDigit)),
               some (digitsToNat (l.takeWhile (·.isDigit))), r2)
  | ',' :: r2 =>
    match r2.dropWhile (·.isDigit) with
    | '}' :: r4 =>
      some (digitsToNat (l.takeWhile (·.isDigit)),
            if (r2.takeWhile (·.isDigit)).isEmpty then none
            else some (digitsToNat (r2.takeWhile (·.isDigit))), r4)
    | _ => none
  | _ => none

/-- The recursive-descent parser of the modelled fragment, following
CPython's `sre_parse`: one step per character, with an explicit stack of
open groups; `fuel` bounds the recursion by the pattern length.  Each
accumulated atom carries a flag saying whether a quantifier may follow it
(`false` for anchors and already-quantified atoms, reproducing CPython's
"nothing to repeat" and "multiple repeat" errors). -/
def parseAux : Nat → List Char → List (Pat × Bool) → List Pat →
    List (List (Pat × Bool) × List Pat) → Option Pat
  | 0, _, _, _, _ => none
  | _ + 1, [], seqRev, alts, [] => some (altOf (finishSeq seqRev :: alts).reverse)
  | _ + 1, [], _, _, _ :: _ => none
  | fuel + 1, c :: rest, seqRev, alts, stack =>
    if c = '(' then parseAux fuel rest [] [] ((seqRev, alts) :: stack)
    else if c = ')' then
      match stack with
      | [] => none
      | (pseq, palts) :: stack' =>
        parseAux fuel rest
          ((altOf (finishSeq seqRev :: alts).reverse, true) :: pseq) palts stack'
    else if c = '|' then
      parseAux fuel rest [] (finishSeq seqRev :: alts) stack
    else if c = '^' then
      parseAux fuel rest ((Pat.startAnchor, false) :: seqRev) alts stack
    else if c = '$' then
      parseAux fuel rest ((Pat.endAnchor, false) :: seqRev) alts stack
    else if c = '.' then
      parseAux fuel rest ((Pat.dot, true) :: seqRev) alts stack
    else if c = '{' then
      match scanQuant rest with
      | none => parseAux fuel rest ((Pat.lit '{', true) :: seqRev) alts stack
      | some (lo, hi, rest') =>
        match seqRev with
        | [] => none
        | (atom, q) :: seqRev' =>
          if q then
            match hi with
            | none => none
            | some h =>
              if h < lo then none
              else parseAux fuel rest' ((repPat atom lo h, false) :: seqRev') alts stack
          else none
    else if c ∈ outsideFragment then none
    else parseAux fuel rest ((Pat.lit c, true) :: seqRev) alts stack

/-- Compile a pattern string, as `re.compile(pat, re.IGNORECASE)` does;
`none` models `re.error`. -/
def compilePattern (s : String) : Option Pat :=
  parseAux (s.data.length + 1) s.data [] [] []

/-- All end positions at which a pattern can match starting at position
`i` of `s`: literals compare case-insensitively, `.` excludes a newline,
`^` holds at the string start, `$` at the end or just before a final
newline — Python `re` semantics without `MULTILINE`. -/
def matchEnds : Pat → List Char → Nat → List Nat
  | Pat.empty, _, i => [i]
  | Pat.lit c, s, i =>
    match s[i]? with
    | some d => if c.toLower == d.toLower then [i + 1] else []
    | none => []
  | Pat.dot, s, i =>
    match s[i]? with
    | some d => if d = '\n' then [] else [i + 1]
    | none => []
  | Pat.startAnchor, _, i => if i = 0 then [i] else []
  | Pat.endAnchor, s, i =>
    if i = s.length then [i]
    else if i + 1 = s.length ∧ s[i]? = some '\n' then [i] else []
  | Pat.seq p q, s, i => (matchEnds p s i).bind fun j => matchEnds q s j
  | Pat.alt p q, s, i => matchEnds p s i ++ matchEnds q s i

/-- `re.search` semantics: the pattern matches somewhere in the string,
tried at every start position. -/
def searchCI (pat : Pat) (s : List Char) : Bool :=
  (List.range (s.length + 1)).any fun i => !(matchEnds pat s i).isEmpty

/-- The Python exceptions the embedded code can raise. -/
inductive Err where
  | lookupError : Err
  | keyError : Err
  | regexError : Err
deriving DecidableEq, Repr

/-- One row of the depositional-environment colour standard
(`DEPENV_colour_standard.csv`): columns `DEPOSITIONAL ENVIRONMENT`,
`SMDA code`, `R`, `G`, `B`. -/
structure RefEntry where
  label : String
  code : Int
  r : Int
  g : Int
  b : Int
deriving DecidableEq, Repr

/-- `DepositionalEnvironmentSMDAStandard.get_smda_code_for_dep_environment`:
filter the standard by `str.contains(dep_env, flags=re.IGNORECASE)` and take
`["SMDA code"].values[0]`; an empty selection raises `IndexError`
(a `LookupError`), a malformed pattern raises `re.error`. -/
def get_smda_code_for_dep_environment (std : List RefEntry) (dep_env : String) :
    Except Err Int :=
  match compilePattern dep_env with
  | none => Except.error Err.regexError
  | some pat =>
    match (std.filter fun e => searchCI pat e.label.data).head? with
    | none => Except.error Err.lookupError
    | some e => Except.ok e.code

/-- A discrete-metadata block: `attributes` plus `objects` mapping a label to
`[[R, G, B, 255], code]`. -/
structure MetaBlock where
  attributes : List String
  objects : List (String × (List Int × Int))
deriving DecidableEq, Repr

/-- Insert into a Python dict modelled as an association list: an existing
key keeps its position and gets the new value, a new key is appended. -/
def dictInsert {α β : Type} [DecidableEq α] :
    List (α × β) → α → β → List (α × β)
  | [], k, v => [(k, v)]
  | (k', v') :: rest, k, v =>
    if k' = k then (k', v) :: rest else (k', v') :: dictInsert rest k v

/-- Build a Python dict from a sequence of key-value pairs, left to right. -/
def dictOfList {α β : Type} [DecidableEq α] (l : List (α × β)) : List (α × β) :=
  l.foldl (fun acc kv => dictInsert acc kv.1 kv.2) []

/-- `DepositionalEnvironmentSMDAStandard.get_webviz_well_log_metadata`:
all reference entries as one discrete-metadata block keyed
`"DepositionalEnvironment"`. -/
def get_webviz_well_log_metadata (std : List RefEntry) :
    List (String × MetaBlock) :=
  [("DepositionalEnvironment",
    { attributes := ["color", "code"],
      objects := dictOfList
        (std.map fun e => (e.label, ([e.r, e.g, e.b, 255], e.code))) })]

/-- One row of the lithostratigraphy table
(`lithstr_and_depenv_cleaned.csv`): columns `unique_wellbore_identifier`,
`Depth_top`, `Depth_base`, `Lithostrat_unit`, `Depositional Environment`
(the last one `none` when the cell is not a string). -/
structure LithRow where
  well : String
  depthTop : Int
  depthBase : Int
  lithostratUnit : String
  depEnv : Option String
deriving DecidableEq, Repr

/-- `pandas.Series.unique`: distinct values in first-encountered order. -/
def uniqueAux (seen : List String) : List String → List String
  | [] => []
  | x :: xs =>
    if x ∈ seen then uniqueAux seen xs else x :: uniqueAux (x :: seen) xs

/-- Distinct values of a column, in first-encountered order. -/
def uniqueFirst (l : List String) : List String := uniqueAux [] l

/-- `DepositionalEnvironmentsWebviz._lithostrat_codes`: enumerate the distinct
`Lithostrat_unit` labels of the WHOLE table, in first-encountered order. -/
def lithostrat_codes (df : List LithRow) : List (String × Nat) :=
  (uniqueFirst (df.map (·.lithostratUnit))).enum.map fun ic => (ic.2, ic.1)

/-- `min` of a pandas numeric series: `none` (NaN) on an empty series. -/
def listMin : List Int → Option Int
  | [] => none
  | x :: xs =>
    match listMin xs with
    | none => some x
    | some m => some (min x m)

/-- `max` of a pandas numeric series: `none` (NaN) on an empty series. -/
def listMax : List Int → Option Int
  | [] => none
  | x :: xs =>
    match listMax xs with
    | none => some x
    | some m => some (max x m)

/-- The `header` dict of a well-log document; `startIndex`/`endIndex` are
`Option Int`, with `none` standing for pandas' NaN on an empty column. -/
structure LogHeader where
  name : String
  well : String
  startIndex : Option Int
  endIndex : Option Int
  step : Option Int
deriving DecidableEq, Repr

/-- `DepositionalEnvironmentsWebviz._get_log_header`. -/
def get_log_header (df : List LithRow) (well_name : String) : LogHeader :=
  let f := df.filter fun r => r.well == well_name
  { name := "BLOCKING"
    well := well_name
    startIndex := listMin (f.map (·.depthTop))
    endIndex := listMax (f.map (·.depthBase))
    step := none }

/-- One emitted data row `[Depth_top, depenv code or None, lithostrat code]`. -/
structure DataRow where
  depth : Int
  depEnvCode : Option Int
  lithCode : Nat
deriving DecidableEq, Repr

/-- A Python loop that appends one result per element and lets the first
exception escape. -/
def mapExcept {α β : Type} (f : α → Except Err β) : List α → Except Err (List β)
  | [] => Except.ok []
  | x :: xs =>
    match f x with
    | Except.error e => Except.error e
    | Except.ok y =>
      match mapExcept f xs with
      | Except.error e => Except.error e
      | Except.ok ys => Except.ok (y :: ys)

/-- The body of the row loop in `_get_log_data`: the depositional-environment
entry is `None` when the cell is not a string, otherwise the resolved SMDA
code (whose `LookupError` escapes); the lithostrat entry is a dict subscript
into the codes table. -/
def rowData (std : List RefEntry) (codes : List (String × Nat)) (row : LithRow) :
    Except Err DataRow :=
  match
    (match row.depEnv with
     | none => Except.ok (none : Option Int)
     | some s =>
       match get_smda_code_for_dep_environment std s with
       | Except.error e => Except.error e
       | Except.ok c => Except.ok (some c)) with
  | Except.error e => Except.error e
  | Except.ok dep =>
    match codes.lookup row.lithostratUnit with
    | none => Except.error Err.keyError
    | some c => Except.ok { depth := row.depthTop, depEnvCode := dep, lithCode := c }

/-- `DepositionalEnvironmentsWebviz._get_log_data`: filter to the requested
well and emit one data row per source row, in source order. -/
def get_log_data (std : List RefEntry) (df : List LithRow) (well_name : String) :
    Except Err (List DataRow) :=
  mapExcept (rowData std (lithostrat_codes df)) (df.filter fun r => r.well == well_name)

/-- The `Lithostrat_unit` metadata block built in `_get_log_metadata_discrete`. -/
def lithMetaBlock (df : List LithRow) : MetaBlock :=
  { attributes := ["color", "code"]
    objects := dictOfList
      ((lithostrat_codes df).map fun lc => (lc.1, ([0, 0, 0, 255], (lc.2 : Int)))) }

/-- `DepositionalEnvironmentsWebviz._get_log_metadata_discrete`: the
lithostrat block, then `dict.update` with the resolver's metadata. -/
def get_log_metadata_discrete (std : List RefEntry) (df : List LithRow) :
    List (String × MetaBlock) :=
  (get_webviz_well_log_metadata std).foldl
    (fun acc kv => dictInsert acc kv.1 kv.2)
    [("Lithostrat_unit", lithMetaBlock df)]

/-- One curve descriptor of `_get_log_curves`. -/
structure Curve where
  name : String
  description : String
  quantity : String
  unit : String
  valueType : String
  dimensions : Nat
deriving DecidableEq, Repr

/-- `DepositionalEnvironmentsWebviz._get_log_curves`. -/
def get_log_curves : List Curve :=
  [ { name := "MD", description := "continuous", quantity := "m", unit := "m",
      valueType := "float", dimensions := 1 },
    { name := "DepositionalEnvironment", description := "", quantity := "DISC",
      unit := "DISC", valueType := "integer", dimensions := 1 },
    { name := "Lithostrat_unit", description := "", quantity := "DISC",
      unit := "DISC", valueType := "integer", dimensions := 1 } ]

/-- The complete well-log document. -/
structure LogDocument where
  header : LogHeader
  curves : List Curve
  data : List DataRow
  metadata_discrete : List (String × MetaBlock)
deriving DecidableEq, Repr

/-- `DepositionalEnvironmentsWebviz.get_webviz_well_log`; only the data loop
can raise, and its exception aborts the whole document. -/
def get_webviz_well_log (std : List RefEntry) (df : List LithRow)
    (well_name : String) : Except Err LogDocument :=
  match get_log_data std df well_name with
  | Except.error e => Except.error e
  | Except.ok data =>
    Except.ok
      { header := get_log_header df well_name
        curves := get_log_curves
        data := data
        metadata_discrete := get_log_metadata_discrete std df }

/-- One plot of a display template track. -/
structure Plot where
  name : String
  type : String
  colorTable : Option String
deriving DecidableEq, Repr

/-- One track of a display template. -/
structure Track where
  plots : List Plot
deriving DecidableEq, Repr

/-- A display template of the `_set_well` callback. -/
structure Template where
  name : String
  scalePrimary : String
  tracks : List Track
deriving DecidableEq, Repr

/-- The fixed template cloned once per selected well in `_set_well`. -/
def theTemplate : Template :=
  { name := "Template"
    scalePrimary := "MD"
    tracks :=
      [ { plots := [{ name := "DepositionalEnvironment", type := "stacked",
                      colorTable := none }] },
        { plots := [{ name := "Lithostrat_unit", type := "stacked",
                      colorTable := some "Stratigraphy" }] } ] }

/-- The `_set_well` callback: one document per selected well (an exception in
any build aborts the callback), one template clone per well, the constant
spacer `200` per well, and `wellDistances` returned as the very same spacer
list. -/
def set_well (std : List RefEntry) (df : List LithRow) (well_names : List String) :
    Except Err (List LogDocument × List Template × List Int × List Int) :=
  match mapExcept (get_webviz_well_log std df) well_names with
  | Except.error e => Except.error e
  | Except.ok logs =>
    Except.ok (logs, well_names.map fun _ => theTemplate,
               well_names.map fun _ => (200 : Int),
               well_names.map fun _ => (200 : Int))

/-- Modelled from the spec (§4.1): the spec's words for `resolveCode`, a
case-insensitive LITERAL substring match of the argument against the
reference labels, first match in table order, `LookupError` on zero
matches.  Used only to compare the spec's wording with the source's
regex-based resolver. -/
def subCIAt : List Char → List Char → Bool
  | [], _ => true
  | _ :: _, [] => false
  | a :: as, b :: bs => a.toLower == b.toLower && subCIAt as bs

/-- Modelled from the spec (§4.1): `needle` occurs case-insensitively as a
literal substring of `hay`. -/
def subCI (needle : List Char) : List Char → Bool
  | [] => subCIAt needle []
  | c :: cs => subCIAt needle (c :: cs) || subCI needle cs

/-- Modelled from the spec (§4.1): resolve a label by case-insensitive
literal substring match against the reference labels. -/
def specSubstringResolve (std : List RefEntry) (dep_env : String) :
    Except Err Int :=
  match (std.filter fun e => subCI dep_env.data e.label.data).head? with
  | none => Except.error Err.lookupError
  | some e => Except.ok e.code

/-- Every character that is, or can take part in, regex special syntax in
the modelled fragment (`]` and `}` are literal in Python but are excluded
conservatively). -/
def regexSpecial : List Char :=
  ['(', ')', '|', '^', '$', '.', '{', '}', ']', '*', '+', '?', '[', '\\']

/-- A pattern character that is parsed as a plain literal. -/
def plainChar (c : Char) : Bool := !(decide (c ∈ regexSpecial))

/-- A query string free of regex special characters, for which the
source's `str.contains` behaves as a case-insensitive literal substring
search. -/
def plainPattern (s : String) : Bool := s.data.all plainChar

instance {ε α : Type} [DecidableEq ε] [DecidableEq α] :
    DecidableEq (Except ε α) := fun a b =>
  match a, b with
  | Except.error e, Except.error f =>
    if h : e = f then Decidable.isTrue (by rw [h])
    else Decidable.isFalse (by simp [h])
  | Except.error _, Except.ok _ => Decidable.isFalse (by simp)
  | Except.ok _, Except.error _ => Decidable.isFalse (by simp)
  | Except.ok x, Except.ok y =>
    if h : x = y then Decidable.isTrue (by rw [h])
    else Decidable.isFalse (by simp [h])

/-! Concrete inputs used by the scenario claims. -/

/-- The reference table of the spec's scenario: one entry
`(label "Marine", code 7, colour blue)`. -/
def marineStd : List RefEntry :=
  [{ label := "Marine", code := 7, r := 0, g := 0, b := 255 }]

/-- The scenario table: well `A-1` with stratigraphic labels
`Sand`, `Shale`, `Sand`, in that order. -/
def dfScenario : List LithRow :=
  [ { well := "A-1", depthTop := 100, depthBase := 200,
      lithostratUnit := "Sand", depEnv := none },
    { well := "A-1", depthTop := 200, depthBase := 300,
      lithostratUnit := "Shale", depEnv := none },
    { well := "A-1", depthTop := 300, depthBase := 400,
      lithostratUnit := "Sand", depEnv := none } ]

/-- A table holding only one row of well `A-1`. -/
def dfOne : List LithRow :=
  [ { well := "A-1", depthTop := 1, depthBase := 2,
      lithostratUnit := "Sand", depEnv := none } ]

/-- The same `A-1` row as `dfOne`, preceded by a row of another well with a
different stratigraphic label. -/
def dfTwo : List LithRow :=
  [ { well := "B-2", depthTop := 5, depthBase := 6,
      lithostratUnit := "Shale", depEnv := none },
    { well := "A-1", depthTop := 1, depthBase := 2,
      lithostratUnit := "Sand", depEnv := none } ]

/-- A table whose single `A-1` row has a depositional environment that the
`marineStd` reference table cannot resolve. -/
def dfBadEnv : List LithRow :=
  [ { well := "A-1", depthTop := 1, depthBase := 2,
      lithostratUnit := "Sand", depEnv := some "volcanic" } ]

/-- A two-well table: the `A-1` row of `dfOne` followed by a `B-2` row that
reuses the stratigraphic label `Sand`. -/
def dfW1 : List LithRow :=
  [ { well := "A-1", depthTop := 1, depthBase := 2,
      lithostratUnit := "Sand", depEnv := none },
    { well := "B-2", depthTop := 5, depthBase := 6,
      lithostratUnit := "Sand", depEnv := none } ]

/-- A table agreeing with `dfW1` on the rows of `A-1` and on the whole
`Lithostrat_unit` column, while its second row belongs to another well. -/
def dfW2 : List LithRow :=
  [ { well := "A-1", depthTop := 1, depthBase := 2,
      lithostratUnit := "Sand", depEnv := none },
    { well := "C-3", depthTop := 9, depthBase := 11,
      lithostratUnit := "Sand", depEnv := none } ]

/-- The document the source returns for a well name absent from `dfOne`:
pandas' `min`/`max` of an empty column give NaN (here `none`), the data
loop runs zero times, and no exception is raised. -/
def docNope : LogDocument :=
  { header := { name := "BLOCKING", well := "NOPE", startIndex := none,
                endIndex := none, step := none }
    curves := get_log_curves
    data := []
    metadata_discrete :=
      [ ("Lithostrat_unit",
         { attributes := ["color", "code"],
           objects := [("Sand", ([0, 0, 0, 255], 0))] }),
        ("DepositionalEnvironment",
         { attributes := ["color", "code"], objects := [] }) ] }

/-- The data rows the source emits for well `A-1` of `dfScenario`. -/
def scenarioRows : List DataRow :=
  [ { depth := 100, depEnvCode := none, lithCode := 0 },
    { depth := 200, depEnvCode := none, lithCode := 1 },
    { depth := 300, depEnvCode := none, lithCode := 0 } ]

/-- The complete document the source builds for well `A-1` of `dfScenario`
(with an empty reference table). -/
def scenarioDoc : LogDocument :=
  { header := { name := "BLOCKING", well := "A-1", startIndex := some 100,
                endIndex := some 400, step := none }
    curves := get_log_curves
    data := scenarioRows
    metadata_discrete :=
      [ ("Lithostrat_unit",
         { attributes := ["color", "code"],
           objects := [("Sand", ([0, 0, 0, 255], 0)),
                       ("Shale", ([0, 0, 0, 255], 1))] }),
        ("DepositionalEnvironment",
         { attributes := ["color", "code"], objects := [] }) ] }

/-- A table whose single `A-1` row has the resolvable depositional
environment `"marine"`. -/
def dfSea : List LithRow :=
  [ { well := "A-1", depthTop := 10, depthBase := 20,
      lithostratUnit := "Sand", depEnv := some "marine" } ]

/-- The data rows the source emits for well `A-1` of `dfSea` against
`marineStd`. -/
def seaRows : List DataRow :=
  [ { depth := 10, depEnvCode := some 7, lithCode := 0 } ]

/-! ## Theorems -/

/-- A successful `mapExcept` run maps each element to its result. -/
theorem mapExcept_ok {α β : Type} (f : α → Except Err β) (l : List α) :
    ∀ ys, mapExcept f l = Except.ok ys →
      List.Forall₂ (fun x y => f x = Except.ok y) l ys := by
  induction l with
  | nil =>
    intro ys h
    simp only [mapExcept, Except.ok.injEq] at h
    rw [← h]
    exact List.Forall₂.nil
  | cons x xs ih =>
    intro ys h
    unfold mapExcept at h
    split at h
    · exact Except.noConfusion h
    next y hfx =>
      split at h
      · exact Except.noConfusion h
      next ys' hrest =>
        simp only [Except.ok.injEq] at h
        rw [← h]
        exact List.Forall₂.cons hfx (ih ys' hrest)

/-- From a `Forall₂`, each left element has a related right element. -/
theorem forall2_mem_left {α β : Type} {R : α → β → Prop} {l : List α}
    {ys : List β} (h : List.Forall₂ R l ys) : ∀ x ∈ l, ∃ y, R x y := by
  induction h with
  | nil => intro x hx; exact absurd hx (List.not_mem_nil x)
  | cons hr _ ih =>
    intro x hx
    rcases List.mem_cons.mp hx with h1 | h2
    · exact ⟨_, h1 ▸ hr⟩
    · exact ih x h2

/-- What a successfully built data row contains. -/
theorem rowData_ok (std : List RefEntry) (codes : List (String × Nat))
    (row : LithRow) (r : DataRow) (h : rowData std codes row = Except.ok r) :
    r.depth = row.depthTop ∧
    (row.depEnv = none → r.depEnvCode = none) ∧
    (∀ s, row.depEnv = some s → ∃ c,
      get_smda_code_for_dep_environment std s = Except.ok c ∧
      r.depEnvCode = some c) ∧
    codes.lookup row.lithostratUnit = some r.lithCode := by
  cases henv : row.depEnv with
  | none =>
    cases hlk : codes.lookup row.lithostratUnit with
    | none =>
      simp only [rowData, henv, hlk] at h
      exact Except.noConfusion h
    | some c =>
      simp only [rowData, henv, hlk, Except.ok.injEq] at h
      rw [← h]
      exact ⟨rfl, fun _ => rfl, fun s hs => Option.noConfusion hs, rfl⟩
  | some s0 =>
    cases hres : get_smda_code_for_dep_environment std s0 with
    | error e =>
      simp only [rowData, henv, hres] at h
      exact Except.noConfusion h
    | ok cde =>
      cases hlk : codes.lookup row.lithostratUnit with
      | none =>
        simp only [rowData, henv, hres, hlk] at h
        exact Except.noConfusion h
      | some c =>
        simp only [rowData, henv, hres, hlk, Except.ok.injEq] at h
        rw [← h]
        refine ⟨rfl, fun hno => Option.noConfusion hno, ?_, rfl⟩
        intro s hs
        cases hs
        exact ⟨cde, hres, rfl⟩

/-- The minimum of a nonempty list, as `listMin` computes it. -/
theorem listMin_spec (l : List Int) :
    l ≠ [] → ∃ m, listMin l = some m ∧ m ∈ l ∧ ∀ y ∈ l, m ≤ y := by
  induction l with
  | nil => intro h; exact absurd rfl h
  | cons x xs ih =>
    intro _
    by_cases hxs : xs = []
    · subst hxs
      exact ⟨x, rfl, List.mem_singleton.mpr rfl, by simp⟩
    · obtain ⟨m, hm, hmem, hle⟩ := ih hxs
      refine ⟨min x m, by simp [listMin, hm], ?_, ?_⟩
      · rcases le_total x m with hc | hc
        · rw [min_eq_left hc]; exact List.mem_cons_self x xs
        · rw [min_eq_right hc]; exact List.mem_cons_of_mem _ hmem
      · intro y hy
        rcases List.mem_cons.mp hy with h1 | h2
        · rw [h1]; exact min_le_left x m
        · exact le_trans (min_le_right x m) (hle y h2)

/-- The maximum of a nonempty list, as `listMax` computes it. -/
theorem listMax_spec (l : List Int) :
    l ≠ [] → ∃ m, listMax l = some m ∧ m ∈ l ∧ ∀ y ∈ l, y ≤ m := by
  induction l with
  | nil => intro h; exact absurd rfl h
  | cons x xs ih =>
    intro _
    by_cases hxs : xs = []
    · subst hxs
      exact ⟨x, rfl, List.mem_singleton.mpr rfl, by simp⟩
    · obtain ⟨m, hm, hmem, hle⟩ := ih hxs
      refine ⟨max x m, by simp [listMax, hm], ?_, ?_⟩
      · rcases le_total x m with hc | hc
        · rw [max_eq_right hc]; exact List.mem_cons_of_mem _ hmem
        · rw [max_eq_left hc]; exact List.mem_cons_self x xs
      · intro y hy
        rcases List.mem_cons.mp hy with h1 | h2
        · rw [h1]; exact le_max_left x m
        · exact le_trans (hle y h2) (le_max_right x m)

/-- C1 (counterexample): with the reference table holding exactly
`(Marine, 7)`, `resolveCode "marine deposits"` does NOT return 7: the source
searches for the queried string INSIDE the label, so the empty selection
raises a `LookupError` (`IndexError` from `.values[0]`). -/
theorem c1_counterexample :
    get_smda_code_for_dep_environment marineStd "marine deposits" =
      Except.error Err.lookupError ∧
    (Except.error Err.lookupError : Except Err Int) ≠ Except.ok 7 :=
  ⟨rfl, by decide⟩

/-- C1 (amended): the match direction is the reverse of the claim's: with
reference entry `(Marine, 7)`, a lookup succeeds when the queried value
occurs case-insensitively inside the label (`"marine"` and `"Marine"` both
resolve to 7), while `"marine deposits"` — of which the label IS a
case-insensitive substring — raises a `LookupError`. -/
theorem c1_resolve_direction :
    get_smda_code_for_dep_environment marineStd "marine" = Except.ok 7 ∧
    get_smda_code_for_dep_environment marineStd "Marine" = Except.ok 7 ∧
    subCI "Marine".data "marine deposits".data = true ∧
    get_smda_code_for_dep_environment marineStd "marine deposits" =
      Except.error Err.lookupError ∧
    subCI "marine".data "Marine".data = true :=
  ⟨rfl, rfl, rfl, rfl, rfl⟩

/-- C4 (counterexample): `dfOne` and `dfTwo` agree on the rows of well
`A-1` (same single row), yet the documents built for `A-1` differ, because
`_lithostrat_codes` enumerates the labels of the WHOLE table: the `B-2` row
of `dfTwo` shifts `Sand` from code 0 to code 1. -/
theorem c4_counterexample :
    dfOne.filter (fun r => r.well == "A-1") =
      dfTwo.filter (fun r => r.well == "A-1") ∧
    get_webviz_well_log [] dfOne "A-1" ≠ get_webviz_well_log [] dfTwo "A-1" :=
  ⟨rfl, by decide⟩

/-- C4 (amended): the LogDocument of a well is a function of the rows
filtered to that well AND the full table's `Lithostrat_unit` column (plus
the reference table): two tables agreeing on both yield identical
documents. -/
theorem c4_document_dependencies (std : List RefEntry) (df₁ df₂ : List LithRow)
    (w : String)
    (hf : df₁.filter (fun r => r.well == w) = df₂.filter (fun r => r.well == w))
    (hl : df₁.map (·.lithostratUnit) = df₂.map (·.lithostratUnit)) :
    get_webviz_well_log std df₁ w = get_webviz_well_log std df₂ w := by
  have hcodes : lithostrat_codes df₁ = lithostrat_codes df₂ := by
    unfold lithostrat_codes; rw [hl]
  have hdata : get_log_data std df₁ w = get_log_data std df₂ w := by
    unfold get_log_data; rw [hcodes, hf]
  have hheader : get_log_header df₁ w = get_log_header df₂ w := by
    unfold get_log_header; rw [hf]
  have hmeta : get_log_metadata_discrete std df₁ =
      get_log_metadata_discrete std df₂ := by
    unfold get_log_metadata_discrete lithMetaBlock; rw [hcodes]
  unfold get_webviz_well_log
  rw [hdata, hheader, hmeta]

/-- C4 (witness): `dfW1` and `dfW2` agree on `A-1`'s rows and on the
stratigraphic-label column, so the documents coincide. -/
theorem c4_document_dependencies_witness :
    get_webviz_well_log [] dfW1 "A-1" = get_webviz_well_log [] dfW2 "A-1" :=
  c4_document_dependencies [] dfW1 dfW2 "A-1" rfl rfl

/-- C5: for the table whose `A-1` rows carry stratigraphic labels
`Sand, Shale, Sand` in that order, the code table maps `Sand` to 0 and
`Shale` to 1 (first-encountered order), and the stratigraphic codes of the
document's data rows are `[0, 1, 0]`. -/
theorem c5_strat_code_scenario :
    lithostrat_codes dfScenario = [("Sand", 0), ("Shale", 1)] ∧
    ∃ doc, get_webviz_well_log [] dfScenario "A-1" = Except.ok doc ∧
      doc.data.map (·.lithCode) = [0, 1, 0] :=
  ⟨rfl, _, rfl, rfl⟩

/-- C6 (counterexample): requesting the document of a well with no rows
raises nothing: the source returns a complete document whose
`startIndex`/`endIndex` are pandas' NaN on an empty column (modelled
`none`) — there is no `NotFoundError` anywhere in the code. -/
theorem c6_counterexample :
    get_webviz_well_log [] dfOne "NOPE" = Except.ok docNope ∧
    docNope.header.startIndex = none :=
  ⟨rfl, rfl⟩

/-- C6 (amended): for a well identifier with no rows in the source table,
the build does not fail: it returns a document with `none` (NaN) depth
bounds and empty data. -/
theorem c6_missing_well_document (std : List RefEntry) (df : List LithRow)
    (w : String) (h : df.filter (fun r => r.well == w) = []) :
    ∃ doc, get_webviz_well_log std df w = Except.ok doc ∧
      doc.header.startIndex = none ∧ doc.header.endIndex = none ∧
      doc.data = [] := by
  have hdata : get_log_data std df w = Except.ok [] := by
    simp [get_log_data, h, mapExcept]
  have hdoc : get_webviz_well_log std df w =
      Except.ok { header := get_log_header df w, curves := get_log_curves,
                  data := [], metadata_discrete := get_log_metadata_discrete std df } := by
    unfold get_webviz_well_log
    rw [hdata]
  exact ⟨_, hdoc, by simp [get_log_header, h, listMin],
         by simp [get_log_header, h, listMax], rfl⟩

/-- C6 (witness): `dfOne` has no rows for well `NOPE`. -/
theorem c6_missing_well_document_witness :
    ∃ doc, get_webviz_well_log [] dfOne "NOPE" = Except.ok doc ∧
      doc.header.startIndex = none ∧ doc.header.endIndex = none ∧
      doc.data = [] :=
  c6_missing_well_document [] dfOne "NOPE" rfl

/-- On a string of plain characters the parser only takes the literal
branch, whatever atoms are already accumulated. -/
theorem parseAux_plain : ∀ (l : List Char) (fuel : Nat)
    (seqRev : List (Pat × Bool)),
    l.all plainChar = true → l.length < fuel →
    parseAux fuel l seqRev [] [] =
      some (finishSeq ((l.map fun c => (Pat.lit c, true)).reverse ++ seqRev)) := by
  intro l
  induction l with
  | nil =>
    intro fuel seqRev _ hf
    cases fuel with
    | zero => exact absurd hf (by simp)
    | succ f => simp [parseAux, altOf]
  | cons c cs ih =>
    intro fuel seqRev hall hf
    cases fuel with
    | zero => exact absurd hf (by simp)
    | succ f =>
      rw [List.all_cons, Bool.and_eq_true] at hall
      obtain ⟨hc, hcs⟩ := hall
      have hmem : c ∉ regexSpecial := by
        simpa [plainChar] using hc
      have h1 : ¬c = '(' := fun h => hmem (by rw [h]; decide)
      have h2 : ¬c = ')' := fun h => hmem (by rw [h]; decide)
      have h3 : ¬c = '|' := fun h => hmem (by rw [h]; decide)
      have h4 : ¬c = '^' := fun h => hmem (by rw [h]; decide)
      have h5 : ¬c = '$' := fun h => hmem (by rw [h]; decide)
      have h6 : ¬c = '.' := fun h => hmem (by rw [h]; decide)
      have h7 : ¬c = '{' := fun h => hmem (by rw [h]; decide)
      have h8 : ¬c ∈ outsideFragment := fun h =>
        hmem ((by decide : ∀ x ∈ outsideFragment, x ∈ regexSpecial) c h)
      simp only [parseAux, if_neg h1, if_neg h2, if_neg h3, if_neg h4,
        if_neg h5, if_neg h6, if_neg h7, if_neg h8]
      rw [ih f ((Pat.lit c, true) :: seqRev) hcs (Nat.lt_of_succ_lt_succ hf)]
      simp [List.append_assoc]

/-- A query of plain characters compiles to the concatenation of its
literals. -/
theorem compilePattern_plain (q : String) (h : plainPattern q = true) :
    compilePattern q = some (seqOf (q.data.map Pat.lit)) := by
  unfold compilePattern
  rw [parseAux_plain q.data (q.data.length + 1) [] h (Nat.lt_succ_self _)]
  unfold finishSeq
  rw [List.append_nil, List.reverse_reverse, List.map_map]
  rfl

/-- Matching a literal followed by a pattern: one character is consumed,
case-insensitively. -/
theorem matchEnds_lit_seq (a : Char) (p : Pat) (s : List Char) (i : Nat) :
    matchEnds (Pat.seq (Pat.lit a) p) s i =
      (match s[i]? with
       | some d =>
         if a.toLower == d.toLower then matchEnds p s (i + 1) else []
       | none => []) := by
  cases hg : s[i]? with
  | none => simp [matchEnds, hg]
  | some d =>
    by_cases had : (a.toLower == d.toLower) = true
    · simp [matchEnds, hg, had]
    · simp [matchEnds, hg, had]

/-- A concatenation of literals matches from position `i` exactly when the
literal string occurs there, case-insensitively, ending right after it. -/
theorem matchEnds_lits (n : List Char) : ∀ (s : List Char) (i : Nat),
    matchEnds (seqOf (n.map Pat.lit)) s i =
      if subCIAt n (s.drop i) = true then [i + n.length] else [] := by
  induction n with
  | nil =>
    intro s i
    simp [seqOf, matchEnds, subCIAt]
  | cons a as ih =>
    intro s i
    rw [List.map_cons]
    show matchEnds (Pat.seq (Pat.lit a) (seqOf (as.map Pat.lit))) s i = _
    rw [matchEnds_lit_seq]
    cases hg : s[i]? with
    | none =>
      have hdrop : s.drop i = [] :=
        List.drop_eq_nil_of_le (List.getElem?_eq_none_iff.mp hg)
      simp [hg, hdrop, subCIAt]
    | some d =>
      obtain ⟨hlt, hget⟩ := List.getElem?_eq_some_iff.mp hg
      have hdrop : s.drop i = d :: s.drop (i + 1) := by
        rw [List.drop_eq_getElem_cons hlt, hget]
      by_cases had : (a.toLower == d.toLower) = true
      · simp only [hg, had, if_true, ih s (i + 1), hdrop, subCIAt,
          Bool.true_and, List.length_cons]
        by_cases hrest : subCIAt as (s.drop (i + 1)) = true
        · simp only [if_pos hrest]
          congr 1
          omega
        · simp only [if_neg hrest]
      · simp [hg, had, hdrop, subCIAt]

/-- Substring search is search from every start position. -/
theorem subCI_any (n : List Char) : ∀ (s : List Char),
    subCI n s = (List.range (s.length + 1)).any fun i => subCIAt n (s.drop i) := by
  intro s
  induction s with
  | nil =>
    have h1 : List.range 1 = [0] := rfl
    rw [List.length_nil, h1]
    simp [subCI]
  | cons c cs ih =>
    show (subCIAt n (c :: cs) || subCI n cs) = _
    rw [List.length_cons, List.range_succ_eq_map, List.any_cons,
      List.any_map, ih]
    rfl

/-- On plain queries, the regex search of the source is the spec's
case-insensitive substring search. -/
theorem searchCI_lits (n : List Char) (s : List Char) :
    searchCI (seqOf (n.map Pat.lit)) s = subCI n s := by
  rw [subCI_any]
  unfold searchCI
  congr 1
  funext i
  rw [matchEnds_lits]
  by_cases h : subCIAt n (s.drop i) = true
  · simp [h]
  · simp [h]

/-- C3 (counterexample): `resolveCode` does not perform a literal substring
match: with the single entry `(Marine, 7)`, the query `"M.rine"` is not a
literal substring of `"Marine"` and the spec's substring matcher fails on
it, yet the source resolves it to 7 because `.` is a regex wildcard. -/
theorem c3_counterexample :
    get_smda_code_for_dep_environment marineStd "M.rine" = Except.ok 7 ∧
    specSubstringResolve marineStd "M.rine" = Except.error Err.lookupError ∧
    subCI "M.rine".data "Marine".data = false :=
  ⟨rfl, rfl, rfl⟩

/-- C3 (amended): `resolveCode` performs a case-insensitive REGEX search of
its argument within the labels; on arguments free of regex metacharacters
this coincides with the spec's case-insensitive substring match.  For a
well-formed pattern it raises `LookupError` exactly on zero matches, and on
multiple matches returns the code of the first matching entry in
reference-table order. -/
theorem c3_regex_resolve (std : List RefEntry) (q : String) :
    (plainPattern q = true →
      get_smda_code_for_dep_environment std q = specSubstringResolve std q) ∧
    (∀ pat, compilePattern q = some pat →
      (∀ e ∈ std, searchCI pat e.label.data = false) →
      get_smda_code_for_dep_environment std q = Except.error Err.lookupError) ∧
    (∀ pat e rest, compilePattern q = some pat →
      std.filter (fun x => searchCI pat x.label.data) = e :: rest →
      get_smda_code_for_dep_environment std q = Except.ok e.code) := by
  refine ⟨?_, ?_, ?_⟩
  · intro hplain
    have hcomp : compilePattern q = some (seqOf (q.data.map Pat.lit)) :=
      compilePattern_plain q hplain
    have hf : (fun e : RefEntry => searchCI (seqOf (q.data.map Pat.lit)) e.label.data)
        = fun e : RefEntry => subCI q.data e.label.data :=
      funext fun e => searchCI_lits q.data e.label.data
    simp only [get_smda_code_for_dep_environment, specSubstringResolve, hcomp, hf]
  · intro pat hcomp hnone
    have hfilter : std.filter (fun e => searchCI pat e.label.data) = [] :=
      List.filter_eq_nil_iff.mpr fun e he => by simp [hnone e he]
    simp only [get_smda_code_for_dep_environment, hcomp, hfilter, List.head?]
  · intro pat e rest hcomp hfilter
    simp only [get_smda_code_for_dep_environment, hcomp, hfilter, List.head?]

/-- C3 (witness): on the `(Marine, 7)` table — a metacharacter-free query
agrees with the substring matcher; `"xyz"` matches nothing and raises
`LookupError`; `"rine"`'s first (only) match gives code 7. -/
theorem c3_regex_resolve_witness :
    get_smda_code_for_dep_environment marineStd "marine" =
      specSubstringResolve marineStd "marine" ∧
    get_smda_code_for_dep_environment marineStd "xyz" =
      Except.error Err.lookupError ∧
    get_smda_code_for_dep_environment marineStd "rine" =
      Except.ok ({ label := "Marine", code := 7, r := 0, g := 0,
                   b := 255 } : RefEntry).code :=
  ⟨(c3_regex_resolve marineStd "marine").1 rfl,
   (c3_regex_resolve marineStd "xyz").2.1 (seqOf (['x', 'y', 'z'].map Pat.lit))
     rfl (by decide),
   (c3_regex_resolve marineStd "rine").2.2 (seqOf (['r', 'i', 'n', 'e'].map Pat.lit))
     { label := "Marine", code := 7, r := 0, g := 0, b := 255 } [] rfl rfl⟩

/-- C2: a successful document build emits, for each source row of the well
in source order, the data row `[top_depth, depenv_code_or_null,
stratigraphic_code]`, the depositional-environment entry being the null
sentinel exactly when the source field is not a string; and whenever the
resolver raises a `LookupError` on some row's field, the whole data build
fails with an error — no partial list is returned. -/
theorem c2_log_data_rows (std : List RefEntry) (df : List LithRow) (w : String) :
    (∀ rows, get_log_data std df w = Except.ok rows →
      List.Forall₂ (fun (row : LithRow) (r : DataRow) =>
          r.depth = row.depthTop ∧
          (row.depEnv = none → r.depEnvCode = none) ∧
          (∀ s, row.depEnv = some s → ∃ c,
            get_smda_code_for_dep_environment std s = Except.ok c ∧
            r.depEnvCode = some c) ∧
          (lithostrat_codes df).lookup row.lithostratUnit = some r.lithCode)
        (df.filter fun r => r.well == w) rows) ∧
    (∀ row ∈ df.filter (fun r => r.well == w), ∀ s e, row.depEnv = some s →
      get_smda_code_for_dep_environment std s = Except.error e →
      ∃ e', get_log_data std df w = Except.error e') := by
  constructor
  · intro rows hrows
    exact (mapExcept_ok _ _ _ hrows).imp fun _ _ hxy => rowData_ok _ _ _ _ hxy
  · intro row hmem s e henv herr
    cases hres : get_log_data std df w with
    | error e' => exact ⟨e', rfl⟩
    | ok rows =>
      exfalso
      obtain ⟨y, hy⟩ := forall2_mem_left (mapExcept_ok _ _ _ hres) row hmem
      obtain ⟨-, -, h3, -⟩ := rowData_ok _ _ _ _ hy
      obtain ⟨c, hc, -⟩ := h3 s henv
      rw [herr] at hc
      exact Except.noConfusion hc

/-- C2 (witness): on `dfScenario` the build succeeds and each emitted row
satisfies the row relation; on `dfBadEnv` (whose only row carries the
unresolvable field `"volcanic"`) the whole build fails. -/
theorem c2_log_data_rows_witness :
    List.Forall₂ (fun (row : LithRow) (r : DataRow) =>
        r.depth = row.depthTop ∧
        (row.depEnv = none → r.depEnvCode = none) ∧
        (∀ s, row.depEnv = some s → ∃ c,
          get_smda_code_for_dep_environment [] s = Except.ok c ∧
          r.depEnvCode = some c) ∧
        (lithostrat_codes dfScenario).lookup row.lithostratUnit =
          some r.lithCode)
      (dfScenario.filter fun r => r.well == "A-1") scenarioRows ∧
    (∃ e', get_log_data marineStd dfBadEnv "A-1" = Except.error e') :=
  ⟨(c2_log_data_rows [] dfScenario "A-1").1 scenarioRows rfl,
   (c2_log_data_rows marineStd dfBadEnv "A-1").2
     { well := "A-1", depthTop := 1, depthBase := 2,
       lithostratUnit := "Sand", depEnv := some "volcanic" }
     (by decide) "volcanic" Err.lookupError rfl rfl⟩

/-- C8: for a well with at least one source row, the header's `startIndex`
is the minimum of the `Depth_top` column over the well's rows, `endIndex`
the maximum of `Depth_base`, and `step` is null. -/
theorem c8_header_bounds (df : List LithRow) (w : String)
    (h : df.filter (fun r => r.well == w) ≠ []) :
    (get_log_header df w).step = none ∧
    (∃ a, (get_log_header df w).startIndex = some a ∧
      a ∈ (df.filter (fun r => r.well == w)).map (·.depthTop) ∧
      ∀ y ∈ (df.filter (fun r => r.well == w)).map (·.depthTop), a ≤ y) ∧
    (∃ b, (get_log_header df w).endIndex = some b ∧
      b ∈ (df.filter (fun r => r.well == w)).map (·.depthBase) ∧
      ∀ y ∈ (df.filter (fun r => r.well == w)).map (·.depthBase), y ≤ b) := by
  have htops : (df.filter (fun r => r.well == w)).map (·.depthTop) ≠ [] := by
    intro hc
    exact h (List.map_eq_nil_iff.mp hc)
  have hbases : (df.filter (fun r => r.well == w)).map (·.depthBase) ≠ [] := by
    intro hc
    exact h (List.map_eq_nil_iff.mp hc)
  obtain ⟨a, ha, hamem, hale⟩ := listMin_spec _ htops
  obtain ⟨b, hb, hbmem, hble⟩ := listMax_spec _ hbases
  exact ⟨rfl, ⟨a, ha, hamem, hale⟩, ⟨b, hb, hbmem, hble⟩⟩

/-- C8 (witness): the header bounds of `A-1` in `dfScenario`. -/
theorem c8_header_bounds_witness :
    (get_log_header dfScenario "A-1").step = none ∧
    (∃ a, (get_log_header dfScenario "A-1").startIndex = some a ∧
      a ∈ (dfScenario.filter (fun r => r.well == "A-1")).map (·.depthTop) ∧
      ∀ y ∈ (dfScenario.filter (fun r => r.well == "A-1")).map (·.depthTop),
        a ≤ y) ∧
    (∃ b, (get_log_header dfScenario "A-1").endIndex = some b ∧
      b ∈ (dfScenario.filter (fun r => r.well == "A-1")).map (·.depthBase) ∧
      ∀ y ∈ (dfScenario.filter (fun r => r.well == "A-1")).map (·.depthBase),
        y ≤ b) :=
  c8_header_bounds dfScenario "A-1" (by decide)

/-- C9: the synchronizer callback returns, for an empty selection, four
empty sequences; and whenever it returns at all, the four sequences have
the length of the selection, the documents are in selection order (the
i-th built from the i-th selected well), and `wellDistances` equals the
spacer sequence element-wise. -/
theorem c9_sync_outputs (std : List RefEntry) (df : List LithRow) :
    set_well std df [] = Except.ok ([], [], [], []) ∧
    (∀ names docs temps spacers dists,
      set_well std df names = Except.ok (docs, temps, spacers, dists) →
      docs.length = names.length ∧ temps.length = names.length ∧
      spacers.length = names.length ∧ dists.length = names.length ∧
      dists = spacers ∧
      List.Forall₂ (fun w doc => get_webviz_well_log std df w = Except.ok doc)
        names docs) := by
  refine ⟨rfl, ?_⟩
  intro names docs temps spacers dists h
  unfold set_well at h
  split at h
  · exact Except.noConfusion h
  next logs hlogs =>
    simp only [Except.ok.injEq, Prod.mk.injEq] at h
    obtain ⟨h1, h2, h3, h4⟩ := h
    subst h1 h2 h3 h4
    have hfa := mapExcept_ok _ _ _ hlogs
    exact ⟨hfa.length_eq.symm, List.length_map _ _, List.length_map _ _,
           List.length_map _ _, rfl, hfa⟩

/-- C9 (witness): selecting the single well `A-1` of `dfScenario`. -/
theorem c9_sync_outputs_witness :
    [scenarioDoc].length = ["A-1"].length ∧
    [theTemplate].length = ["A-1"].length ∧
    [(200 : Int)].length = ["A-1"].length ∧
    [(200 : Int)].length = ["A-1"].length ∧
    [(200 : Int)] = [(200 : Int)] ∧
    List.Forall₂
      (fun w doc => get_webviz_well_log [] dfScenario w = Except.ok doc)
      ["A-1"] [scenarioDoc] :=
  (c9_sync_outputs [] dfScenario).2 ["A-1"] [scenarioDoc] [theTemplate]
    [200] [200] rfl

/-- Inserting a fresh key appends the pair at the end of the dict. -/
theorem dictInsert_fresh {α β : Type} [DecidableEq α] (acc : List (α × β))
    (k : α) (v : β) (h : k ∉ acc.map Prod.fst) :
    dictInsert acc k v = acc ++ [(k, v)] := by
  induction acc with
  | nil => rfl
  | cons p rest ih =>
    rw [List.map_cons, List.mem_cons] at h
    push_neg at h
    obtain ⟨h1, h2⟩ := h
    cases p with
    | mk k' v' =>
      simp only [dictInsert]
      rw [if_neg fun hc => h1 hc.symm, ih h2]
      rfl

/-- Folding `dictInsert` over pairs with fresh, pairwise-distinct keys
appends them in order. -/
theorem foldl_dictInsert {α β : Type} [DecidableEq α] :
    ∀ (l acc : List (α × β)), (l.map Prod.fst).Nodup →
      (∀ k ∈ l.map Prod.fst, k ∉ acc.map Prod.fst) →
      l.foldl (fun a kv => dictInsert a kv.1 kv.2) acc = acc ++ l := by
  intro l
  induction l with
  | nil =>
    intro acc _ _
    simp
  | cons p rest ih =>
    intro acc hnd hdisj
    rw [List.map_cons, List.nodup_cons] at hnd
    obtain ⟨hp, hnd'⟩ := hnd
    rw [List.foldl_cons, dictInsert_fresh acc p.1 p.2 (hdisj p.1 (by simp)),
      ih (acc ++ [(p.1, p.2)]) hnd' ?_]
    · simp
    · intro k hk
      rw [List.map_append, List.mem_append]
      push_neg
      refine ⟨hdisj k (List.mem_cons_of_mem _ hk), ?_⟩
      intro hc
      rw [List.map_singleton, List.mem_singleton] at hc
      exact hp (hc ▸ hk)

/-- A Python dict built from pairwise-distinct keys is the pair list itself. -/
theorem dictOfList_nodup {α β : Type} [DecidableEq α] (l : List (α × β))
    (h : (l.map Prod.fst).Nodup) : dictOfList l = l := by
  unfold dictOfList
  rw [foldl_dictInsert l [] h fun k _ => by simp]
  rfl

/-- A successful association-list lookup exhibits a member pair. -/
theorem lookup_mem {α β : Type} [BEq α] [LawfulBEq α] :
    ∀ (l : List (α × β)) (a : α) (b : β), l.lookup a = some b → (a, b) ∈ l := by
  intro l
  induction l with
  | nil => intro a b h; exact Option.noConfusion h
  | cons p rest ih =>
    intro a b h
    cases p with
    | mk k v =>
      simp only [List.lookup] at h
      cases hak : a == k with
      | true =>
        rw [hak] at h
        simp only [Option.some.injEq] at h
        rw [eq_of_beq hak, ← h]
        exact List.mem_cons_self _ _
      | false =>
        rw [hak] at h
        exact List.mem_cons_of_mem _ (ih a b h)

/-- `uniqueAux` returns pairwise-distinct values, none of them seen. -/
theorem uniqueAux_spec : ∀ (l seen : List String),
    (uniqueAux seen l).Nodup ∧ ∀ x ∈ uniqueAux seen l, x ∉ seen := by
  intro l
  induction l with
  | nil =>
    intro seen
    exact ⟨List.nodup_nil, fun x hx => absurd hx (List.not_mem_nil x)⟩
  | cons y ys ih =>
    intro seen
    by_cases hy : y ∈ seen
    · simp only [uniqueAux, if_pos hy]
      exact ih seen
    · simp only [uniqueAux, if_neg hy]
      obtain ⟨hnd, hmem⟩ := ih (y :: seen)
      refine ⟨List.nodup_cons.mpr ⟨?_, hnd⟩, ?_⟩
      · intro hc
        exact hmem y hc (List.mem_cons_self y seen)
      · intro x hx
        rcases List.mem_cons.mp hx with h1 | h2
        · rw [h1]; exact hy
        · intro hc
          exact hmem x h2 (List.mem_cons_of_mem _ hc)

/-- The keys of the stratigraphic code table are the distinct labels. -/
theorem lithostrat_codes_keys (df : List LithRow) :
    (lithostrat_codes df).map Prod.fst =
      uniqueFirst (df.map (·.lithostratUnit)) := by
  unfold lithostrat_codes
  rw [List.map_map]
  exact List.enum_map_snd _

/-- The keys of the stratigraphic code table are pairwise distinct. -/
theorem lithostrat_codes_keys_nodup (df : List LithRow) :
    ((lithostrat_codes df).map Prod.fst).Nodup := by
  rw [lithostrat_codes_keys]
  exact (uniqueAux_spec _ []).1

/-- From a `Forall₂`, each right element has a related left element. -/
theorem forall2_mem_right {α β : Type} {R : α → β → Prop} {l : List α}
    {ys : List β} (h : List.Forall₂ R l ys) : ∀ y ∈ ys, ∃ x ∈ l, R x y := by
  induction h with
  | nil => intro y hy; exact absurd hy (List.not_mem_nil y)
  | cons hr _ ih =>
    intro y hy
    rcases List.mem_cons.mp hy with h1 | h2
    · exact ⟨_, List.mem_cons_self _ _, h1 ▸ hr⟩
    · obtain ⟨x, hx, hr'⟩ := ih y h2
      exact ⟨x, List.mem_cons_of_mem _ hx, hr'⟩

/-- A successfully resolved code is the code of some reference entry. -/
theorem get_smda_ok_mem (std : List RefEntry) (q : String) (c : Int)
    (h : get_smda_code_for_dep_environment std q = Except.ok c) :
    ∃ e ∈ std, e.code = c := by
  unfold get_smda_code_for_dep_environment at h
  cases hcomp : compilePattern q with
  | none =>
    rw [hcomp] at h
    exact Except.noConfusion h
  | some pat =>
    simp only [hcomp] at h
    cases hf : std.filter (fun e => searchCI pat e.label.data) with
    | nil =>
      simp only [hf, List.head?] at h
      exact Except.noConfusion h
    | cons a l =>
      simp only [hf, List.head?, Except.ok.injEq] at h
      have ha : a ∈ std.filter (fun e => searchCI pat e.label.data) := by
        rw [hf]
        exact List.mem_cons_self a l
      exact ⟨a, List.mem_of_mem_filter ha, h⟩

/-- C7: the discrete metadata is the union of the stratigraphic block and
the resolver's block, keyed by the two distinct curve names; and in a
successfully built data list, every resolved depositional-environment code
appears in the `DepositionalEnvironment` block and every stratigraphic code
in the `Lithostrat_unit` block — only the null sentinel has no entry.
(The reference table's labels are assumed pairwise distinct, as befits a
canonical standard keyed by label.) -/
theorem c7_metadata_covers_data (std : List RefEntry) (df : List LithRow)
    (w : String) (rows : List DataRow)
    (hnodup : (std.map (·.label)).Nodup)
    (hok : get_log_data std df w = Except.ok rows) :
    get_log_metadata_discrete std df =
      [("Lithostrat_unit", lithMetaBlock df),
       ("DepositionalEnvironment",
        { attributes := ["color", "code"],
          objects := std.map fun e =>
            (e.label, ([e.r, e.g, e.b, 255], e.code)) })] ∧
    ∀ r ∈ rows,
      (∀ c, r.depEnvCode = some c → ∃ blk,
        (get_log_metadata_discrete std df).lookup "DepositionalEnvironment" =
          some blk ∧ ∃ lbl col, (lbl, (col, c)) ∈ blk.objects) ∧
      (∃ blk,
        (get_log_metadata_discrete std df).lookup "Lithostrat_unit" =
          some blk ∧ ∃ lbl col, (lbl, (col, (r.lithCode : Int))) ∈ blk.objects) := by
  have hkeys : ((std.map fun e =>
      (e.label, (([e.r, e.g, e.b, 255] : List Int), e.code))).map Prod.fst).Nodup := by
    rw [List.map_map]
    exact hnodup
  have hobj : dictOfList (std.map fun e =>
      (e.label, (([e.r, e.g, e.b, 255] : List Int), e.code))) =
      std.map fun e => (e.label, (([e.r, e.g, e.b, 255] : List Int), e.code)) :=
    dictOfList_nodup _ hkeys
  have hmeta : get_log_metadata_discrete std df =
      [("Lithostrat_unit", lithMetaBlock df),
       ("DepositionalEnvironment",
        { attributes := ["color", "code"],
          objects := std.map fun e =>
            (e.label, ([e.r, e.g, e.b, 255], e.code)) })] := by
    unfold get_log_metadata_discrete get_webviz_well_log_metadata
    rw [List.foldl_cons, List.foldl_nil]
    simp only [dictInsert]
    rw [if_neg (by decide : ¬("Lithostrat_unit" : String) = "DepositionalEnvironment"), hobj]
  refine ⟨hmeta, ?_⟩
  intro r hr
  obtain ⟨row, hrowmem, hrel⟩ :=
    forall2_mem_right (mapExcept_ok _ _ _ hok) r hr
  obtain ⟨-, hnone, hsome, hlith⟩ := rowData_ok _ _ _ _ hrel
  constructor
  · intro c hc
    refine ⟨_, by rw [hmeta]; rfl, ?_⟩
    cases henv : row.depEnv with
    | none =>
      rw [hnone henv] at hc
      exact Option.noConfusion hc
    | some s =>
      obtain ⟨c', hc', hcode⟩ := hsome s henv
      rw [hcode] at hc
      simp only [Option.some.injEq] at hc
      obtain ⟨e, hemem, hecode⟩ := get_smda_ok_mem std s c' hc'
      refine ⟨e.label, ([e.r, e.g, e.b, 255] : List Int), ?_⟩
      rw [← hc, ← hecode]
      exact List.mem_map_of_mem _ hemem
  · refine ⟨_, by rw [hmeta]; rfl, ?_⟩
    have hpair : (row.lithostratUnit, r.lithCode) ∈ lithostrat_codes df :=
      lookup_mem _ _ _ hlith
    have hobjlith : (lithMetaBlock df).objects =
        (lithostrat_codes df).map fun lc =>
          (lc.1, (([0, 0, 0, 255] : List Int), (lc.2 : Int))) := by
      unfold lithMetaBlock
      refine dictOfList_nodup _ ?_
      rw [List.map_map]
      exact lithostrat_codes_keys_nodup df
    refine ⟨row.lithostratUnit, ([0, 0, 0, 255] : List Int), ?_⟩
    rw [hobjlith]
    exact List.mem_map_of_mem _ hpair

/-- C7 (witness): on `marineStd` (distinct labels) and a table whose `A-1`
row resolves `"marine"` to 7, the metadata union and the per-row coverage
hold. -/
theorem c7_metadata_covers_data_witness :
    (get_log_metadata_discrete marineStd dfSea =
      [("Lithostrat_unit", lithMetaBlock dfSea),
       ("DepositionalEnvironment",
        { attributes := ["color", "code"],
          objects := marineStd.map fun e =>
            (e.label, ([e.r, e.g, e.b, 255], e.code)) })]) ∧
    ∀ r ∈ seaRows,
      (∀ c, r.depEnvCode = some c → ∃ blk,
        (get_log_metadata_discrete marineStd dfSea).lookup
          "DepositionalEnvironment" = some blk ∧
          ∃ lbl col, (lbl, (col, c)) ∈ blk.objects) ∧
      (∃ blk,
        (get_log_metadata_discrete marineStd dfSea).lookup "Lithostrat_unit" =
          some blk ∧
          ∃ lbl col, (lbl, (col, (r.lithCode : Int))) ∈ blk.objects) :=
  c7_metadata_covers_data marineStd dfSea "A-1" seaRows (by decide) rfl

/-- C10: `resolveCode` treats its argument as a regular expression: the
unbalanced parenthesis `"("` raises a compile error distinct from
`LookupError`, and `"."` resolves to `Marine`'s code 7 although `"."` is
not a literal substring of `"Marine"`. -/
theorem c10_regex_behavior :
    get_smda_code_for_dep_environment marineStd "(" =
      Except.error Err.regexError ∧
    Err.regexError ≠ Err.lookupError ∧
    get_smda_code_for_dep_environment marineStd "." = Except.ok 7 ∧
    subCI ".".data "Marine".data = false :=
  ⟨rfl, by decide, rfl, rfl⟩

end WellLogViewer
